import Mathlib

/-!
Verification of the EngineBridge process bridge (packages/cli: engine bridge module).

The bridge multiplexes unary and streaming requests to a child worker process over
newline-delimited JSON. We embed the bridge state (ready flag, pending-request map,
streaming-session listeners, timers) and its event handlers as pure Lean functions,
and model the promise of each caller as a log of settle attempts, so that
exactly-once resolution and sweep behaviour become provable statements about
executable definitions.
-/

set_option maxHeartbeats 1000000

namespace EngineBridge

/-- JSON-like values as produced by parsing a protocol line; `undef` stands for the
    JavaScript value of a missing object property. -/
inductive Val where
  | undef
  | null
  | bool (b : Bool)
  | num (n : Int)
  | str (s : String)
  | obj (fields : List (String × Val))
  | arr (elems : List Val)

/-- Property access on a parsed object: later duplicate keys win, as with
    JSON.parse and object spread in JavaScript; absent keys give `undef`. -/
def jsFieldAux (fs : List (String × Val)) (k : String) : Val :=
  fs.foldl (fun acc kv => if kv.1 = k then kv.2 else acc) Val.undef

/-- Property access `v[k]` with JavaScript optional-chaining semantics:
    non-objects have no properties. -/
def jsField : Val → String → Val
  | Val.obj fs, k => jsFieldAux fs k
  | _, _ => Val.undef

/-- Test whether a value is a given string (the JavaScript strict equality
    comparison with a string literal). -/
def isStr : Val → String → Bool
  | Val.str t, s => t = s
  | _, _ => false

/-- JavaScript truthiness of a value. -/
def jsTruthy : Val → Bool
  | Val.undef => false
  | Val.null => false
  | Val.bool b => b
  | Val.num n => n != 0
  | Val.str s => s ≠ ""
  | Val.obj _ => true
  | Val.arr _ => true

mutual

/-- JavaScript string conversion of a value, as applied by the Error constructor. -/
def jsToString : Val → String
  | Val.undef => "undefined"
  | Val.null => "null"
  | Val.bool b => cond b "true" "false"
  | Val.num n => toString n
  | Val.str s => s
  | Val.obj _ => "[object Object]"
  | Val.arr es => jsJoin es

/-- Array toString joins elements with commas, rendering null and undefined as empty. -/
def jsJoin : List Val → String
  | [] => ""
  | [v] => jsElem v
  | v :: rest => jsElem v ++ "," ++ jsJoin rest

/-- Element rendering inside an array join. -/
def jsElem : Val → String
  | Val.undef => ""
  | Val.null => ""
  | v => jsToString v

end

/-- The message of the Error built from a worker error response:
    response.error?.message with fallback to the string Unknown error when
    the field is absent or falsy (source lines 163 and 194). -/
def errMessage (v : Val) : String :=
  let m := jsField (jsField v "error") "message"
  if jsTruthy m then jsToString m else "Unknown error"

/-- Terminal-chunk test on streaming data: response.data of object shape whose
    type property is the string done (source line 155). -/
def isDoneData (d : Val) : Bool :=
  isStr (jsField d "type") "done"

/-- A settle attempt applied to the promise of a unary send call: the code either
    resolves with response.data or rejects with an Error carrying only a message. -/
inductive USettle where
  | resolved (data : Val)
  | rejected (msg : String)

/-- A settle attempt applied to the promise of a sendStreaming call; resolution
    carries no payload. -/
inductive SSettle where
  | resolved
  | rejected (msg : String)

/-- A settle attempt applied to the promise returned by waitForReady. -/
inductive StartSettle where
  | resolved
  | rejected (msg : String)

/-- The observable state of one EngineBridge instance. Maps become lists of keys in
    insertion order; each caller promise becomes a log of settle attempts keyed by
    correlation id, so the first entry for an id is the outcome the caller observes
    and the number of entries is the number of settle calls made. -/
structure Bridge where
  ready : Bool := false
  pending : List String := []
  utimers : List String := []
  sessions : List String := []
  stimers : List String := []
  readyListener : Bool := false
  startTimer : Bool := false
  settles : List (String × USettle) := []
  ssettles : List (String × SSettle) := []
  startSettles : List StartSettle := []
  chunks : List (String × Val) := []
  logs : List String := []
  written : List Val := []

attribute [ext] Bridge

/-- Occurrence count of an id in a key list. -/
def occ : List String → String → Nat
  | [], _ => 0
  | x :: xs, i => (if x = i then 1 else 0) + occ xs i

/-- Removal of an id from a key list (clearTimeout or Map delete on that key). -/
def del : List String → String → List String
  | [], _ => []
  | x :: xs, i => if x = i then del xs i else x :: del xs i

/-- Number of log entries recorded for a given id. -/
def cntFst {α : Type} : List (String × α) → String → Nat
  | [], _ => 0
  | p :: ps, i => (if p.1 = i then 1 else 0) + cntFst ps i

/-- The handler registered by waitForReady on the response event: on a message with
    id equal to the string ready it clears the startup timer, flips the ready flag,
    removes itself and resolves the startup promise (source lines 97 to 104). -/
def readyHandler (st : Bridge) (v : Val) : Bridge :=
  if st.readyListener ∧ isStr (jsField v "id") "ready" = true then
    { st with startTimer := false, ready := true, readyListener := false,
              startSettles := st.startSettles ++ [StartSettle.resolved] }
  else st

/-- The per-session handler registered by sendStreaming on the response event
    (source lines 150 to 171). -/
def sessionHandler (st : Bridge) (sid : String) (v : Val) : Bridge :=
  if isStr (jsField v "id") sid = false then st
  else if isStr (jsField v "status") "streaming" = true then
    if isDoneData (jsField v "data") then
      { st with chunks := st.chunks ++ [(sid, jsField v "data")],
                stimers := del st.stimers sid,
                sessions := del st.sessions sid,
                ssettles := st.ssettles ++ [(sid, SSettle.resolved)] }
    else
      { st with chunks := st.chunks ++ [(sid, jsField v "data")] }
  else if isStr (jsField v "status") "error" = true then
    { st with stimers := del st.stimers sid,
              sessions := del st.sessions sid,
              ssettles := st.ssettles ++ [(sid, SSettle.rejected (errMessage v))] }
  else if isStr (jsField v "status") "success" = true then
    { st with stimers := del st.stimers sid,
              sessions := del st.sessions sid,
              chunks := st.chunks ++
                [(sid, Val.obj [("type", Val.str "done"), ("data", jsField v "data")])],
              ssettles := st.ssettles ++ [(sid, SSettle.resolved)] }
  else st

/-- Emission of the response event: the ready listener (registered first, if still
    present) and then every session listener, iterating over the listener snapshot
    taken at emit time (source line 186). -/
def emitResponse (st : Bridge) (v : Val) : Bridge :=
  (st.sessions).foldl (fun s sid => sessionHandler s sid v) (readyHandler st v)

/-- The pending-map part of handleResponse: a non-streaming response whose id is a
    registered key cancels the timer, deletes the entry and settles the caller,
    rejecting on status error and resolving with response.data otherwise
    (source lines 188 to 198). -/
def pendingStep (st : Bridge) (v : Val) : Bridge :=
  match jsField v "id" with
  | Val.str i =>
    if i ∈ st.pending ∧ isStr (jsField v "status") "streaming" = false then
      if isStr (jsField v "status") "error" = true then
        { st with utimers := del st.utimers i, pending := del st.pending i,
                  settles := st.settles ++ [(i, USettle.rejected (errMessage v))] }
      else
        { st with utimers := del st.utimers i, pending := del st.pending i,
                  settles := st.settles ++ [(i, USettle.resolved (jsField v "data"))] }
    else st
  | _ => st

/-- handleResponse: emit the response event to all listeners, then apply the
    pending-map logic (source lines 185 to 199). -/
def handleResponse (st : Bridge) (v : Val) : Bridge :=
  pendingStep (emitResponse st v) v

/-- An inbound line from the worker stdout: either valid JSON or not. -/
inductive Line where
  | nonJson (s : String)
  | json (v : Val)

/-- The readline line handler: JSON lines go to handleResponse, anything that fails
    to parse is emitted as a log event (source lines 64 to 71). -/
def onLine (st : Bridge) (l : Line) : Bridge :=
  match l with
  | Line.json v => handleResponse st v
  | Line.nonJson s => { st with logs := st.logs ++ ["[engine] " ++ s] }

/-- Firing of the 60 second unary timeout of a request: delete the entry and reject
    (source lines 117 to 120); a cancelled timer never fires, so the step is a
    no-op when the timer is no longer active. -/
def utimerFireStep (st : Bridge) (i : String) : Bridge :=
  if i ∈ st.utimers then
    { st with utimers := del st.utimers i,
              pending := del st.pending i,
              settles := st.settles ++ [(i, USettle.rejected "Request timeout (60s)")] }
  else st

/-- Firing of the 300 second streaming timeout: remove the listener and reject
    (source lines 145 to 148). -/
def stimerFireStep (st : Bridge) (i : String) : Bridge :=
  if i ∈ st.stimers then
    { st with stimers := del st.stimers i,
              sessions := del st.sessions i,
              ssettles := st.ssettles ++ [(i, SSettle.rejected "Streaming timeout (300s)")] }
  else st

/-- Firing of the 30 second startup timeout: reject the waitForReady promise;
    the response listener is not removed (source lines 93 to 95). -/
def startTimerFireStep (st : Bridge) : Bridge :=
  if st.startTimer then
    { st with startTimer := false,
              startSettles := st.startSettles ++ [StartSettle.rejected "Engine startup timeout"] }
  else st

/-- rejectAllPending: for every entry of the pending map, cancel its timer and
    reject its promise with the given error, then clear the map
    (source lines 201 to 207). Streaming listeners are untouched. -/
def rejectAllPending (st : Bridge) (msg : String) : Bridge :=
  { st with
    utimers := st.pending.foldl (fun u p => del u p) st.utimers,
    settles := st.settles ++ st.pending.map (fun p => (p, USettle.rejected msg)),
    pending := [] }

/-- stop: clear the ready flag, kill the process, close the reader and sweep the
    pending map with an Engine stopped error (source lines 209 to 214). -/
def stopB (st : Bridge) : Bridge :=
  rejectAllPending { st with ready := false } "Engine stopped"

/-- The outbound message written for a request: the request fields spread first,
    then the id and timestamp fields appended, later keys winning
    (source lines 124 to 128 and 175 to 179). -/
def outMsg (req : List (String × Val)) (id ts : String) : Val :=
  Val.obj (req ++ [("id", Val.str id), ("timestamp", Val.str ts)])

/-- One primitive effect performed inside the body of send or sendStreaming, in
    source order, so that the relative order of registration and stream write is
    itself an object of proof. -/
inductive Effect where
  | startUTimer (id : String)
  | registerPending (id : String)
  | startSTimer (id : String)
  | addListener (id : String)
  | writeLine (v : Val)

/-- Interpretation of one effect on the bridge state. -/
def applyEffect (st : Bridge) : Effect → Bridge
  | Effect.startUTimer i => { st with utimers := st.utimers ++ [i] }
  | Effect.registerPending i => { st with pending := st.pending ++ [i] }
  | Effect.startSTimer i => { st with stimers := st.stimers ++ [i] }
  | Effect.addListener i => { st with sessions := st.sessions ++ [i] }
  | Effect.writeLine v => { st with written := st.written ++ [v] }

/-- Interpretation of a list of effects, first to last. -/
def applyEffects (st : Bridge) (es : List Effect) : Bridge :=
  es.foldl applyEffect st

/-- The effects of the body of send, in source order: start the 60 second timer
    (line 117), register the pending record (line 122), write the encoded line
    (line 130). -/
def sendEffects (id : String) (req : List (String × Val)) (ts : String) : List Effect :=
  [Effect.startUTimer id, Effect.registerPending id, Effect.writeLine (outMsg req id ts)]

/-- The effects of the body of sendStreaming, in source order: start the 300 second
    timer (line 145), register the response listener (line 173), write the encoded
    line (line 181). -/
def sendStreamingEffects (id : String) (req : List (String × Val)) (ts : String) :
    List Effect :=
  [Effect.startSTimer id, Effect.addListener id, Effect.writeLine (outMsg req id ts)]

/-- send: throw Engine not ready when the ready flag is unset, before anything is
    registered or written; otherwise perform the body effects
    (source lines 110 to 132). -/
def sendE (st : Bridge) (req : List (String × Val)) (id ts : String) :
    Except String Bridge :=
  if st.ready then Except.ok (applyEffects st (sendEffects id req ts))
  else Except.error "Engine not ready"

/-- sendStreaming: the same readiness guard, then the streaming body effects
    (source lines 134 to 183). -/
def sendStreamingE (st : Bridge) (req : List (String × Val)) (id ts : String) :
    Except String Bridge :=
  if st.ready then Except.ok (applyEffects st (sendStreamingEffects id req ts))
  else Except.error "Engine not ready"

/-- External events a bridge instance reacts to. -/
inductive Ev where
  | line (l : Line)
  | utimerFire (id : String)
  | stimerFire (id : String)
  | startTimerFire
  | procExit (code : Int)
  | procError (msg : String)
  | stop
  | send (id : String) (req : List (String × Val)) (ts : String)
  | sendStream (id : String) (req : List (String × Val)) (ts : String)

/-- One step of the bridge: dispatch an event to the handler translated from the
    source. A worker process exit sweeps the pending map with the exit error
    (source lines 77 to 80); a stream transport error sweeps it with that error
    (source lines 82 to 85). -/
def step (st : Bridge) : Ev → Bridge
  | Ev.line l => onLine st l
  | Ev.utimerFire i => utimerFireStep st i
  | Ev.stimerFire i => stimerFireStep st i
  | Ev.startTimerFire => startTimerFireStep st
  | Ev.procExit c => rejectAllPending st ("Engine exited with code " ++ toString c)
  | Ev.procError m => rejectAllPending st m
  | Ev.stop => stopB st
  | Ev.send id req ts =>
      match sendE st req id ts with
      | Except.ok st1 => st1
      | Except.error _ => st
  | Ev.sendStream id req ts =>
      match sendStreamingE st req id ts with
      | Except.ok st1 => st1
      | Except.error _ => st

/-- Running a trace of events. -/
def run (st : Bridge) (tr : List Ev) : Bridge :=
  tr.foldl step st

/-- Whether an event mints the given correlation id. -/
def mints (e : Ev) (i : String) : Bool :=
  match e with
  | Ev.send id _ _ => id = i
  | Ev.sendStream id _ _ => id = i
  | _ => false

/-- Fairness completion for unary timers: every still-active 60 second timer
    eventually fires. -/
def flushU (st : Bridge) : Bridge :=
  run st (st.utimers.map Ev.utimerFire)

/-- Fairness completion for streaming timers. -/
def flushS (st : Bridge) : Bridge :=
  run st (st.stimers.map Ev.stimerFire)

/-! Basic lemmas about occurrence counting and deletion. -/

theorem occ_append (l m : List String) (i : String) :
    occ (l ++ m) i = occ l i + occ m i := by
  induction l with
  | nil => simp [occ]
  | cons x xs ih =>
    show (if x = i then 1 else 0) + occ (xs ++ m) i =
      ((if x = i then 1 else 0) + occ xs i) + occ m i
    rw [ih, Nat.add_assoc]

theorem occ_del_self (l : List String) (i : String) : occ (del l i) i = 0 := by
  induction l with
  | nil => simp [del, occ]
  | cons x xs ih =>
    by_cases h : x = i <;> simp [del, occ, h, ih]

theorem occ_del_ne (l : List String) {j i : String} (h : j ≠ i) :
    occ (del l j) i = occ l i := by
  induction l with
  | nil => simp [del]
  | cons x xs ih =>
    by_cases hx : x = j
    · subst hx; simp [del, occ, h, ih]
    · simp [del, occ, hx, ih]

theorem mem_iff_occ (l : List String) (i : String) : i ∈ l ↔ 0 < occ l i := by
  induction l with
  | nil => simp [occ]
  | cons x xs ih =>
    simp only [List.mem_cons, occ, ih]
    by_cases h : x = i
    · subst h
      rw [if_pos rfl]
      constructor
      · intro _; omega
      · intro _; exact Or.inl rfl
    · rw [if_neg h, Nat.zero_add]
      constructor
      · rintro (h1 | h1)
        · exact absurd h1.symm h
        · exact h1
      · intro h1; exact Or.inr h1

theorem not_mem_iff_occ (l : List String) (i : String) : i ∉ l ↔ occ l i = 0 := by
  rw [mem_iff_occ]; omega

theorem cntFst_append {α : Type} (l m : List (String × α)) (i : String) :
    cntFst (l ++ m) i = cntFst l i + cntFst m i := by
  induction l with
  | nil => simp [cntFst]
  | cons p ps ih => simp [cntFst, ih]; omega

theorem cntFst_map {α : Type} (l : List String) (f : String → α) (i : String) :
    cntFst (l.map (fun p => (p, f p))) i = occ l i := by
  induction l with
  | nil => simp [cntFst, occ]
  | cons x xs ih => simp [cntFst, occ, ih]

theorem occ_foldl_del_not_mem (l : List String) (u : List String) (i : String)
    (h : i ∉ l) : occ (l.foldl (fun a p => del a p) u) i = occ u i := by
  induction l generalizing u with
  | nil => simp
  | cons x xs ih =>
    simp only [List.mem_cons, not_or] at h
    simp only [List.foldl_cons]
    rw [ih _ h.2, occ_del_ne _ (Ne.symm h.1)]

theorem occ_foldl_del_mem (l : List String) (u : List String) (i : String)
    (h : i ∈ l) : occ (l.foldl (fun a p => del a p) u) i = 0 := by
  induction l generalizing u with
  | nil => simp at h
  | cons x xs ih =>
    simp only [List.foldl_cons]
    by_cases hx : i ∈ xs
    · exact ih _ hx
    · have hxi : x = i := by
        rcases List.mem_cons.mp h with h1 | h2
        · exact h1.symm
        · exact absurd h2 hx
      subst hxi
      rw [occ_foldl_del_not_mem _ _ _ hx, occ_del_self]

/-! Frame lemmas: which fields each handler leaves untouched. -/

theorem readyHandler_pending (st : Bridge) (v : Val) :
    (readyHandler st v).pending = st.pending := by
  unfold readyHandler; split <;> rfl

theorem readyHandler_utimers (st : Bridge) (v : Val) :
    (readyHandler st v).utimers = st.utimers := by
  unfold readyHandler; split <;> rfl

theorem readyHandler_settles (st : Bridge) (v : Val) :
    (readyHandler st v).settles = st.settles := by
  unfold readyHandler; split <;> rfl

theorem readyHandler_sessions (st : Bridge) (v : Val) :
    (readyHandler st v).sessions = st.sessions := by
  unfold readyHandler; split <;> rfl

theorem readyHandler_stimers (st : Bridge) (v : Val) :
    (readyHandler st v).stimers = st.stimers := by
  unfold readyHandler; split <;> rfl

theorem readyHandler_ssettles (st : Bridge) (v : Val) :
    (readyHandler st v).ssettles = st.ssettles := by
  unfold readyHandler; split <;> rfl

theorem readyHandler_chunks (st : Bridge) (v : Val) :
    (readyHandler st v).chunks = st.chunks := by
  unfold readyHandler; split <;> rfl

theorem sessionHandler_pending (st : Bridge) (sid : String) (v : Val) :
    (sessionHandler st sid v).pending = st.pending := by
  unfold sessionHandler; split <;> try rfl
  split <;> try rfl
  · split <;> rfl
  · split <;> try rfl
    split <;> rfl

theorem sessionHandler_utimers (st : Bridge) (sid : String) (v : Val) :
    (sessionHandler st sid v).utimers = st.utimers := by
  unfold sessionHandler; split <;> try rfl
  split <;> try rfl
  · split <;> rfl
  · split <;> try rfl
    split <;> rfl

theorem sessionHandler_settles (st : Bridge) (sid : String) (v : Val) :
    (sessionHandler st sid v).settles = st.settles := by
  unfold sessionHandler; split <;> try rfl
  split <;> try rfl
  · split <;> rfl
  · split <;> try rfl
    split <;> rfl

theorem pendingStep_sessions (st : Bridge) (v : Val) :
    (pendingStep st v).sessions = st.sessions := by
  unfold pendingStep; split <;> try rfl
  split <;> try rfl
  split <;> rfl

theorem pendingStep_stimers (st : Bridge) (v : Val) :
    (pendingStep st v).stimers = st.stimers := by
  unfold pendingStep; split <;> try rfl
  split <;> try rfl
  split <;> rfl

theorem pendingStep_ssettles (st : Bridge) (v : Val) :
    (pendingStep st v).ssettles = st.ssettles := by
  unfold pendingStep; split <;> try rfl
  split <;> try rfl
  split <;> rfl

theorem pendingStep_chunks (st : Bridge) (v : Val) :
    (pendingStep st v).chunks = st.chunks := by
  unfold pendingStep; split <;> try rfl
  split <;> try rfl
  split <;> rfl

theorem emitResponse_pending (st : Bridge) (v : Val) :
    (emitResponse st v).pending = st.pending := by
  unfold emitResponse
  rw [← readyHandler_pending st v]
  generalize readyHandler st v = st0
  generalize st.sessions = l
  induction l generalizing st0 with
  | nil => rfl
  | cons x xs ih => simp only [List.foldl_cons]; rw [ih, sessionHandler_pending]

theorem emitResponse_utimers (st : Bridge) (v : Val) :
    (emitResponse st v).utimers = st.utimers := by
  unfold emitResponse
  rw [← readyHandler_utimers st v]
  generalize readyHandler st v = st0
  generalize st.sessions = l
  induction l generalizing st0 with
  | nil => rfl
  | cons x xs ih => simp only [List.foldl_cons]; rw [ih, sessionHandler_utimers]

theorem emitResponse_settles (st : Bridge) (v : Val) :
    (emitResponse st v).settles = st.settles := by
  unfold emitResponse
  rw [← readyHandler_settles st v]
  generalize readyHandler st v = st0
  generalize st.sessions = l
  induction l generalizing st0 with
  | nil => rfl
  | cons x xs ih => simp only [List.foldl_cons]; rw [ih, sessionHandler_settles]

/-! Per-id effect of the pending-map logic and of session handlers. -/

theorem pendingStep_occ (st : Bridge) (v : Val) (i : String) :
    (occ (pendingStep st v).pending i = occ st.pending i ∧
     occ (pendingStep st v).utimers i = occ st.utimers i ∧
     cntFst (pendingStep st v).settles i = cntFst st.settles i) ∨
    (i ∈ st.pending ∧
     occ (pendingStep st v).pending i = 0 ∧
     occ (pendingStep st v).utimers i = 0 ∧
     cntFst (pendingStep st v).settles i = cntFst st.settles i + 1) := by
  rcases hvid : jsField v "id" with _ | _ | b | n | j | fs | es <;>
    simp only [pendingStep, hvid]
  case str =>
    by_cases hg : j ∈ st.pending ∧ isStr (jsField v "status") "streaming" = false
    · rw [if_pos hg]
      by_cases hji : j = i
      · subst hji
        refine Or.inr ⟨hg.1, ?_⟩
        split <;>
          exact ⟨by simp [occ_del_self], by simp [occ_del_self],
                 by simp [cntFst_append, cntFst]⟩
      · refine Or.inl ?_
        split <;>
          exact ⟨by simp [occ_del_ne _ hji], by simp [occ_del_ne _ hji],
                 by simp [cntFst_append, cntFst, hji]⟩
    · rw [if_neg hg]
      exact Or.inl ⟨rfl, rfl, rfl⟩
  all_goals exact Or.inl ⟨trivial, trivial, trivial⟩

theorem sessionHandler_other (st : Bridge) (x : String) (v : Val) (i : String)
    (hne : x ≠ i) :
    occ (sessionHandler st x v).sessions i = occ st.sessions i ∧
    occ (sessionHandler st x v).stimers i = occ st.stimers i ∧
    cntFst (sessionHandler st x v).ssettles i = cntFst st.ssettles i := by
  unfold sessionHandler
  split_ifs <;>
    exact ⟨by simp [occ_del_ne _ hne], by simp [occ_del_ne _ hne],
           by simp [cntFst_append, cntFst, hne]⟩

theorem sessionHandler_self (st : Bridge) (i : String) (v : Val) :
    (occ (sessionHandler st i v).sessions i = occ st.sessions i ∧
     occ (sessionHandler st i v).stimers i = occ st.stimers i ∧
     cntFst (sessionHandler st i v).ssettles i = cntFst st.ssettles i) ∨
    (occ (sessionHandler st i v).sessions i = 0 ∧
     occ (sessionHandler st i v).stimers i = 0 ∧
     cntFst (sessionHandler st i v).ssettles i = cntFst st.ssettles i + 1) := by
  unfold sessionHandler
  split_ifs
  · exact Or.inl ⟨rfl, rfl, rfl⟩
  · exact Or.inr ⟨by simp [occ_del_self], by simp [occ_del_self],
                  by simp [cntFst_append, cntFst]⟩
  · exact Or.inl ⟨rfl, rfl, rfl⟩
  · exact Or.inr ⟨by simp [occ_del_self], by simp [occ_del_self],
                  by simp [cntFst_append, cntFst]⟩
  · exact Or.inr ⟨by simp [occ_del_self], by simp [occ_del_self],
                  by simp [cntFst_append, cntFst]⟩
  · exact Or.inl ⟨rfl, rfl, rfl⟩

theorem fold_sessions_noi (v : Val) (i : String) (l : List String) (st : Bridge)
    (h : occ l i = 0) :
    occ ((l.foldl (fun s sid => sessionHandler s sid v) st)).sessions i =
      occ st.sessions i ∧
    occ ((l.foldl (fun s sid => sessionHandler s sid v) st)).stimers i =
      occ st.stimers i ∧
    cntFst ((l.foldl (fun s sid => sessionHandler s sid v) st)).ssettles i =
      cntFst st.ssettles i := by
  induction l generalizing st with
  | nil => exact ⟨rfl, rfl, rfl⟩
  | cons x xs ih =>
    have hx : x ≠ i ∧ occ xs i = 0 := by
      constructor
      · intro hxi; rw [hxi] at h; simp [occ] at h
      · by_cases hxi : x = i
        · rw [hxi] at h; simp [occ] at h
        · simp [occ, hxi] at h; exact h
    obtain ⟨h1, h2, h3⟩ := sessionHandler_other st x v i hx.1
    obtain ⟨g1, g2, g3⟩ := ih (sessionHandler st x v) hx.2
    exact ⟨by rw [List.foldl_cons] at *; rw [g1, h1],
           by rw [List.foldl_cons] at *; rw [g2, h2],
           by rw [List.foldl_cons] at *; rw [g3, h3]⟩

theorem fold_sessions_reg (v : Val) (i : String) (l : List String) (st : Bridge)
    (hc : occ st.sessions i = 1 ∧ occ st.stimers i = 1 ∧ cntFst st.ssettles i = 0)
    (hl : occ l i ≤ 1) :
    (occ ((l.foldl (fun s sid => sessionHandler s sid v) st)).sessions i = 1 ∧
     occ ((l.foldl (fun s sid => sessionHandler s sid v) st)).stimers i = 1 ∧
     cntFst ((l.foldl (fun s sid => sessionHandler s sid v) st)).ssettles i = 0) ∨
    (occ ((l.foldl (fun s sid => sessionHandler s sid v) st)).sessions i = 0 ∧
     occ ((l.foldl (fun s sid => sessionHandler s sid v) st)).stimers i = 0 ∧
     cntFst ((l.foldl (fun s sid => sessionHandler s sid v) st)).ssettles i = 1) := by
  induction l generalizing st with
  | nil => exact Or.inl hc
  | cons x xs ih =>
    simp only [List.foldl_cons]
    by_cases hxi : x = i
    · rw [hxi] at hl ⊢
      have hxs : occ xs i = 0 := by simp [occ] at hl; omega
      rcases sessionHandler_self st i v with ⟨h1, h2, h3⟩ | ⟨h1, h2, h3⟩
      · obtain ⟨g1, g2, g3⟩ := fold_sessions_noi v i xs (sessionHandler st i v) hxs
        exact Or.inl ⟨by rw [g1, h1, hc.1], by rw [g2, h2, hc.2.1],
                      by rw [g3, h3, hc.2.2]⟩
      · obtain ⟨g1, g2, g3⟩ := fold_sessions_noi v i xs (sessionHandler st i v) hxs
        exact Or.inr ⟨by rw [g1, h1], by rw [g2, h2],
                      by rw [g3, h3, hc.2.2]⟩
    · have hxs : occ xs i ≤ 1 := by simp [occ, hxi] at hl; omega
      obtain ⟨h1, h2, h3⟩ := sessionHandler_other st x v i hxi
      exact ih (sessionHandler st x v)
        ⟨by rw [h1, hc.1], by rw [h2, hc.2.1], by rw [h3, hc.2.2]⟩ hxs

/-- Streaming counts of the response-event emission when the id has no registered
    listener. -/
theorem emit_stream_noi (st : Bridge) (v : Val) (i : String)
    (h : occ st.sessions i = 0) :
    occ (emitResponse st v).sessions i = occ st.sessions i ∧
    occ (emitResponse st v).stimers i = occ st.stimers i ∧
    cntFst (emitResponse st v).ssettles i = cntFst st.ssettles i := by
  unfold emitResponse
  have hr1 := readyHandler_sessions st v
  have hr2 := readyHandler_stimers st v
  have hr3 := readyHandler_ssettles st v
  obtain ⟨g1, g2, g3⟩ :=
    fold_sessions_noi v i st.sessions (readyHandler st v) h
  exact ⟨by rw [g1, hr1], by rw [g2, hr2], by rw [g3, hr3]⟩

/-- Streaming counts of the response-event emission for a registered session. -/
theorem emit_stream_reg (st : Bridge) (v : Val) (i : String)
    (hc : occ st.sessions i = 1 ∧ occ st.stimers i = 1 ∧ cntFst st.ssettles i = 0) :
    (occ (emitResponse st v).sessions i = 1 ∧
     occ (emitResponse st v).stimers i = 1 ∧
     cntFst (emitResponse st v).ssettles i = 0) ∨
    (occ (emitResponse st v).sessions i = 0 ∧
     occ (emitResponse st v).stimers i = 0 ∧
     cntFst (emitResponse st v).ssettles i = 1) := by
  unfold emitResponse
  have hr1 := readyHandler_sessions st v
  have hr2 := readyHandler_stimers st v
  have hr3 := readyHandler_ssettles st v
  exact fold_sessions_reg v i st.sessions (readyHandler st v)
    ⟨by rw [hr1, hc.1], by rw [hr2, hc.2.1], by rw [hr3, hc.2.2]⟩
    (le_of_eq hc.1)

/-! Life-cycle invariants of one correlation id. A unary id is fresh (never
    minted), registered (entry and timer live, promise unsettled) or done
    (entry and timer gone, promise settled exactly once); likewise a streaming
    id with respect to the listener list and streaming timer. -/

def UFresh (st : Bridge) (i : String) : Prop :=
  occ st.pending i = 0 ∧ occ st.utimers i = 0 ∧ cntFst st.settles i = 0

def UReg (st : Bridge) (i : String) : Prop :=
  occ st.pending i = 1 ∧ occ st.utimers i = 1 ∧ cntFst st.settles i = 0

def UDone (st : Bridge) (i : String) : Prop :=
  occ st.pending i = 0 ∧ occ st.utimers i = 0 ∧ cntFst st.settles i = 1

def SFresh (st : Bridge) (i : String) : Prop :=
  occ st.sessions i = 0 ∧ occ st.stimers i = 0 ∧ cntFst st.ssettles i = 0

def SReg (st : Bridge) (i : String) : Prop :=
  occ st.sessions i = 1 ∧ occ st.stimers i = 1 ∧ cntFst st.ssettles i = 0

def SDone (st : Bridge) (i : String) : Prop :=
  occ st.sessions i = 0 ∧ occ st.stimers i = 0 ∧ cntFst st.ssettles i = 1

theorem utriple (st st' : Bridge) (i : String)
    (h1 : occ st'.pending i = occ st.pending i)
    (h2 : occ st'.utimers i = occ st.utimers i)
    (h3 : cntFst st'.settles i = cntFst st.settles i) :
    (UFresh st i → UFresh st' i) ∧
    (UReg st i → UReg st' i ∨ UDone st' i) ∧
    (UDone st i → UDone st' i) :=
  ⟨fun h => ⟨h1.trans h.1, h2.trans h.2.1, h3.trans h.2.2⟩,
   fun h => Or.inl ⟨h1.trans h.1, h2.trans h.2.1, h3.trans h.2.2⟩,
   fun h => ⟨h1.trans h.1, h2.trans h.2.1, h3.trans h.2.2⟩⟩

theorem striple (st st' : Bridge) (i : String)
    (h1 : occ st'.sessions i = occ st.sessions i)
    (h2 : occ st'.stimers i = occ st.stimers i)
    (h3 : cntFst st'.ssettles i = cntFst st.ssettles i) :
    (SFresh st i → SFresh st' i) ∧
    (SReg st i → SReg st' i ∨ SDone st' i) ∧
    (SDone st i → SDone st' i) :=
  ⟨fun h => ⟨h1.trans h.1, h2.trans h.2.1, h3.trans h.2.2⟩,
   fun h => Or.inl ⟨h1.trans h.1, h2.trans h.2.1, h3.trans h.2.2⟩,
   fun h => ⟨h1.trans h.1, h2.trans h.2.1, h3.trans h.2.2⟩⟩

theorem sweep_unary (st st0 : Bridge) (i : String) (msg : String)
    (hpend : st0.pending = st.pending) (hut : st0.utimers = st.utimers)
    (hset : st0.settles = st.settles) :
    (UFresh st i → UFresh (rejectAllPending st0 msg) i) ∧
    (UReg st i → UReg (rejectAllPending st0 msg) i ∨ UDone (rejectAllPending st0 msg) i) ∧
    (UDone st i → UDone (rejectAllPending st0 msg) i) := by
  have hp : occ (rejectAllPending st0 msg).pending i = 0 := rfl
  have hs : cntFst (rejectAllPending st0 msg).settles i =
      cntFst st.settles i + occ st.pending i := by
    show cntFst (st0.settles ++ st0.pending.map fun p => (p, USettle.rejected msg)) i = _
    rw [cntFst_append, cntFst_map, hpend, hset]
  refine ⟨fun h => ⟨hp, ?_, ?_⟩, fun h => Or.inr ⟨hp, ?_, ?_⟩, fun h => ⟨hp, ?_, ?_⟩⟩
  · show occ (st0.pending.foldl (fun u p => del u p) st0.utimers) i = 0
    have hni : i ∉ st0.pending := by
      rw [hpend, not_mem_iff_occ]; exact h.1
    rw [occ_foldl_del_not_mem _ _ _ hni, hut]; exact h.2.1
  · rw [hs, h.1, h.2.2]
  · show occ (st0.pending.foldl (fun u p => del u p) st0.utimers) i = 0
    have hni : i ∈ st0.pending := by
      rw [hpend, mem_iff_occ, h.1]; omega
    exact occ_foldl_del_mem _ _ _ hni
  · rw [hs, h.1, h.2.2]
  · show occ (st0.pending.foldl (fun u p => del u p) st0.utimers) i = 0
    have hni : i ∉ st0.pending := by
      rw [hpend, not_mem_iff_occ]; exact h.1
    rw [occ_foldl_del_not_mem _ _ _ hni, hut]; exact h.2.1
  · rw [hs, h.1, h.2.2]

/-! Shape of the step function on send events, depending on the ready flag. -/

theorem step_send_ready (st : Bridge) (j : String) (req : List (String × Val))
    (ts : String) (hr : st.ready = true) :
    step st (Ev.send j req ts) =
      { st with utimers := st.utimers ++ [j], pending := st.pending ++ [j],
                written := st.written ++ [outMsg req j ts] } := by
  simp [step, sendE, hr, applyEffects, sendEffects, applyEffect]

theorem step_send_notReady (st : Bridge) (j : String) (req : List (String × Val))
    (ts : String) (hr : st.ready = false) :
    step st (Ev.send j req ts) = st := by
  simp [step, sendE, hr]

theorem step_sendStream_ready (st : Bridge) (j : String) (req : List (String × Val))
    (ts : String) (hr : st.ready = true) :
    step st (Ev.sendStream j req ts) =
      { st with stimers := st.stimers ++ [j], sessions := st.sessions ++ [j],
                written := st.written ++ [outMsg req j ts] } := by
  simp [step, sendStreamingE, hr, applyEffects, sendStreamingEffects, applyEffect]

theorem step_sendStream_notReady (st : Bridge) (j : String) (req : List (String × Val))
    (ts : String) (hr : st.ready = false) :
    step st (Ev.sendStream j req ts) = st := by
  simp [step, sendStreamingE, hr]

theorem step_unary (st : Bridge) (e : Ev) (i : String) (hm : mints e i = false) :
    (UFresh st i → UFresh (step st e) i) ∧
    (UReg st i → UReg (step st e) i ∨ UDone (step st e) i) ∧
    (UDone st i → UDone (step st e) i) := by
  cases e with
  | line l =>
    cases l with
    | nonJson s => exact utriple st _ i rfl rfl rfl
    | json v =>
      rcases pendingStep_occ (emitResponse st v) v i with ⟨h1, h2, h3⟩ | ⟨hmem, h1, h2, h3⟩
      · exact utriple st _ i
          (h1.trans (congrArg (occ · i) (emitResponse_pending st v)))
          (h2.trans (congrArg (occ · i) (emitResponse_utimers st v)))
          (h3.trans (congrArg (cntFst · i) (emitResponse_settles st v)))
      · have hmem2 : i ∈ st.pending := by
          rw [← emitResponse_pending st v]; exact hmem
        have hocc : 0 < occ st.pending i := (mem_iff_occ _ _).mp hmem2
        have h3s : cntFst (pendingStep (emitResponse st v) v).settles i =
            cntFst st.settles i + 1 := by
          rw [h3, congrArg (cntFst · i) (emitResponse_settles st v)]
        refine ⟨fun h => ?_,
          fun h => Or.inr ⟨h1, h2, by
            show cntFst (pendingStep (emitResponse st v) v).settles i = 1
            rw [h3s, h.2.2]⟩,
          fun h => ?_⟩
        · rw [h.1] at hocc; exact absurd hocc (lt_irrefl 0)
        · rw [h.1] at hocc; exact absurd hocc (lt_irrefl 0)
  | utimerFire j =>
    by_cases hj : j ∈ st.utimers
    · by_cases hji : j = i
      · subst hji
        have hocc : 0 < occ st.utimers j := (mem_iff_occ _ _).mp hj
        have h1 : occ (step st (Ev.utimerFire j)).pending j = 0 := by
          show occ (utimerFireStep st j).pending j = 0
          rw [utimerFireStep, if_pos hj]; exact occ_del_self _ _
        have h2 : occ (step st (Ev.utimerFire j)).utimers j = 0 := by
          show occ (utimerFireStep st j).utimers j = 0
          rw [utimerFireStep, if_pos hj]; exact occ_del_self _ _
        have h3 : cntFst (step st (Ev.utimerFire j)).settles j =
            cntFst st.settles j + 1 := by
          show cntFst (utimerFireStep st j).settles j = _
          rw [utimerFireStep, if_pos hj]
          show cntFst (st.settles ++ [(j, USettle.rejected "Request timeout (60s)")]) j = _
          rw [cntFst_append]; simp [cntFst]
        refine ⟨fun h => ?_, fun h => Or.inr ⟨h1, h2, by rw [h3, h.2.2]⟩, fun h => ?_⟩
        · rw [h.2.1] at hocc; exact absurd hocc (lt_irrefl 0)
        · rw [h.2.1] at hocc; exact absurd hocc (lt_irrefl 0)
      · refine utriple st _ i ?_ ?_ ?_
        · show occ (utimerFireStep st j).pending i = occ st.pending i
          rw [utimerFireStep, if_pos hj]; exact occ_del_ne _ hji
        · show occ (utimerFireStep st j).utimers i = occ st.utimers i
          rw [utimerFireStep, if_pos hj]; exact occ_del_ne _ hji
        · show cntFst (utimerFireStep st j).settles i = cntFst st.settles i
          rw [utimerFireStep, if_pos hj]
          show cntFst (st.settles ++ [(j, USettle.rejected "Request timeout (60s)")]) i = _
          rw [cntFst_append]; simp [cntFst, hji]
    · refine utriple st _ i ?_ ?_ ?_ <;>
        simp only [step, utimerFireStep, if_neg hj]
  | stimerFire j =>
    refine utriple st _ i ?_ ?_ ?_ <;>
      (simp only [step, stimerFireStep]; split <;> rfl)
  | startTimerFire =>
    refine utriple st _ i ?_ ?_ ?_ <;>
      (simp only [step, startTimerFireStep]; split <;> rfl)
  | procExit c =>
    exact sweep_unary st st i _ rfl rfl rfl
  | procError m =>
    exact sweep_unary st st i _ rfl rfl rfl
  | stop =>
    exact sweep_unary st { st with ready := false } i _ rfl rfl rfl
  | send j req ts =>
    have hji : j ≠ i := by simpa [mints] using hm
    by_cases hr : st.ready
    · rw [step_send_ready st j req ts hr]
      refine utriple st _ i ?_ ?_ ?_
      · show occ (st.pending ++ [j]) i = occ st.pending i
        rw [occ_append]; simp [occ, hji]
      · show occ (st.utimers ++ [j]) i = occ st.utimers i
        rw [occ_append]; simp [occ, hji]
      · rfl
    · rw [step_send_notReady st j req ts (by simpa using hr)]
      exact utriple st st i rfl rfl rfl
  | sendStream j req ts =>
    by_cases hr : st.ready
    · rw [step_sendStream_ready st j req ts hr]
      exact utriple st _ i rfl rfl rfl
    · rw [step_sendStream_notReady st j req ts (by simpa using hr)]
      exact utriple st st i rfl rfl rfl

theorem step_stream (st : Bridge) (e : Ev) (i : String) (hm : mints e i = false) :
    (SFresh st i → SFresh (step st e) i) ∧
    (SReg st i → SReg (step st e) i ∨ SDone (step st e) i) ∧
    (SDone st i → SDone (step st e) i) := by
  cases e with
  | line l =>
    cases l with
    | nonJson s => exact striple st _ i rfl rfl rfl
    | json v =>
      have p1 := congrArg (occ · i) (pendingStep_sessions (emitResponse st v) v)
      have p2 := congrArg (occ · i) (pendingStep_stimers (emitResponse st v) v)
      have p3 := congrArg (cntFst · i) (pendingStep_ssettles (emitResponse st v) v)
      refine ⟨fun h => ?_, fun h => ?_, fun h => ?_⟩
      · obtain ⟨g1, g2, g3⟩ := emit_stream_noi st v i h.1
        exact ⟨p1.trans (g1.trans h.1), p2.trans (g2.trans h.2.1),
               p3.trans (g3.trans h.2.2)⟩
      · rcases emit_stream_reg st v i h with ⟨g1, g2, g3⟩ | ⟨g1, g2, g3⟩
        · exact Or.inl ⟨p1.trans g1, p2.trans g2, p3.trans g3⟩
        · exact Or.inr ⟨p1.trans g1, p2.trans g2, p3.trans g3⟩
      · obtain ⟨g1, g2, g3⟩ := emit_stream_noi st v i h.1
        exact ⟨p1.trans (g1.trans h.1), p2.trans (g2.trans h.2.1),
               p3.trans (g3.trans h.2.2)⟩
  | utimerFire j =>
    refine striple st _ i ?_ ?_ ?_ <;>
      (simp only [step, utimerFireStep]; split <;> rfl)
  | stimerFire j =>
    by_cases hj : j ∈ st.stimers
    · by_cases hji : j = i
      · subst hji
        have hocc : 0 < occ st.stimers j := (mem_iff_occ _ _).mp hj
        have h1 : occ (step st (Ev.stimerFire j)).sessions j = 0 := by
          show occ (stimerFireStep st j).sessions j = 0
          rw [stimerFireStep, if_pos hj]; exact occ_del_self _ _
        have h2 : occ (step st (Ev.stimerFire j)).stimers j = 0 := by
          show occ (stimerFireStep st j).stimers j = 0
          rw [stimerFireStep, if_pos hj]; exact occ_del_self _ _
        have h3 : cntFst (step st (Ev.stimerFire j)).ssettles j =
            cntFst st.ssettles j + 1 := by
          show cntFst (stimerFireStep st j).ssettles j = _
          rw [stimerFireStep, if_pos hj]
          show cntFst (st.ssettles ++ [(j, SSettle.rejected "Streaming timeout (300s)")]) j = _
          rw [cntFst_append]; simp [cntFst]
        refine ⟨fun h => ?_, fun h => Or.inr ⟨h1, h2, by rw [h3, h.2.2]⟩, fun h => ?_⟩
        · rw [h.2.1] at hocc; exact absurd hocc (lt_irrefl 0)
        · rw [h.2.1] at hocc; exact absurd hocc (lt_irrefl 0)
      · refine striple st _ i ?_ ?_ ?_
        · show occ (stimerFireStep st j).sessions i = occ st.sessions i
          rw [stimerFireStep, if_pos hj]; exact occ_del_ne _ hji
        · show occ (stimerFireStep st j).stimers i = occ st.stimers i
          rw [stimerFireStep, if_pos hj]; exact occ_del_ne _ hji
        · show cntFst (stimerFireStep st j).ssettles i = cntFst st.ssettles i
          rw [stimerFireStep, if_pos hj]
          show cntFst (st.ssettles ++ [(j, SSettle.rejected "Streaming timeout (300s)")]) i = _
          rw [cntFst_append]; simp [cntFst, hji]
    · refine striple st _ i ?_ ?_ ?_ <;>
        simp only [step, stimerFireStep, if_neg hj]
  | startTimerFire =>
    refine striple st _ i ?_ ?_ ?_ <;>
      (simp only [step, startTimerFireStep]; split <;> rfl)
  | procExit c => exact striple st _ i rfl rfl rfl
  | procError m => exact striple st _ i rfl rfl rfl
  | stop => exact striple st _ i rfl rfl rfl
  | send j req ts =>
    by_cases hr : st.ready
    · rw [step_send_ready st j req ts hr]
      exact striple st _ i rfl rfl rfl
    · rw [step_send_notReady st j req ts (by simpa using hr)]
      exact striple st st i rfl rfl rfl
  | sendStream j req ts =>
    have hji : j ≠ i := by simpa [mints] using hm
    by_cases hr : st.ready
    · rw [step_sendStream_ready st j req ts hr]
      refine striple st _ i ?_ ?_ ?_
      · show occ (st.sessions ++ [j]) i = occ st.sessions i
        rw [occ_append]; simp [occ, hji]
      · show occ (st.stimers ++ [j]) i = occ st.stimers i
        rw [occ_append]; simp [occ, hji]
      · rfl
    · rw [step_sendStream_notReady st j req ts (by simpa using hr)]
      exact striple st st i rfl rfl rfl

/-! Preservation along whole traces, and the fairness completion of timers. -/

theorem run_unary (st : Bridge) (tr : List Ev) (i : String)
    (hm : ∀ e ∈ tr, mints e i = false) :
    (UFresh st i → UFresh (run st tr) i) ∧
    (UReg st i → UReg (run st tr) i ∨ UDone (run st tr) i) ∧
    (UDone st i → UDone (run st tr) i) := by
  induction tr generalizing st with
  | nil => exact ⟨id, Or.inl, id⟩
  | cons e es ih =>
    have h0 := step_unary st e i (hm e (List.mem_cons_self e es))
    have h1 := ih (step st e) (fun f hf => hm f (List.mem_cons_of_mem e hf))
    refine ⟨fun h => h1.1 (h0.1 h), fun h => ?_, fun h => h1.2.2 (h0.2.2 h)⟩
    rcases h0.2.1 h with hh | hh
    · exact h1.2.1 hh
    · exact Or.inr (h1.2.2 hh)

theorem run_stream (st : Bridge) (tr : List Ev) (i : String)
    (hm : ∀ e ∈ tr, mints e i = false) :
    (SFresh st i → SFresh (run st tr) i) ∧
    (SReg st i → SReg (run st tr) i ∨ SDone (run st tr) i) ∧
    (SDone st i → SDone (run st tr) i) := by
  induction tr generalizing st with
  | nil => exact ⟨id, Or.inl, id⟩
  | cons e es ih =>
    have h0 := step_stream st e i (hm e (List.mem_cons_self e es))
    have h1 := ih (step st e) (fun f hf => hm f (List.mem_cons_of_mem e hf))
    refine ⟨fun h => h1.1 (h0.1 h), fun h => ?_, fun h => h1.2.2 (h0.2.2 h)⟩
    rcases h0.2.1 h with hh | hh
    · exact h1.2.1 hh
    · exact Or.inr (h1.2.2 hh)

theorem run_ufires (l : List String) (st : Bridge) (i : String)
    (h : (UReg st i ∧ occ l i = 1) ∨ UDone st i) :
    UDone (run st (l.map Ev.utimerFire)) i := by
  induction l generalizing st with
  | nil =>
    rcases h with ⟨hr, hl⟩ | hd
    · simp [occ] at hl
    · exact hd
  | cons x xs ih =>
    have hmx : mints (Ev.utimerFire x) i = false := rfl
    rcases h with ⟨hr, hl⟩ | hd
    · by_cases hxi : x = i
      · subst hxi
        rcases (step_unary st (Ev.utimerFire x) x hmx).2.1 hr with hreg | hdone
        · exfalso
          have hx : x ∈ st.utimers := (mem_iff_occ _ _).mpr (by rw [hr.2.1]; omega)
          have : occ (step st (Ev.utimerFire x)).utimers x = 0 := by
            show occ (utimerFireStep st x).utimers x = 0
            rw [utimerFireStep, if_pos hx]; exact occ_del_self _ _
          rw [hreg.2.1] at this; exact absurd this (by omega)
        · exact ih (step st (Ev.utimerFire x)) (Or.inr hdone)
      · have hxs : occ xs i = 1 := by
          rw [occ] at hl; rw [if_neg hxi] at hl; omega
        rcases (step_unary st (Ev.utimerFire x) i hmx).2.1 hr with hreg | hdone
        · exact ih (step st (Ev.utimerFire x)) (Or.inl ⟨hreg, hxs⟩)
        · exact ih (step st (Ev.utimerFire x)) (Or.inr hdone)
    · exact ih (step st (Ev.utimerFire x))
        (Or.inr ((step_unary st (Ev.utimerFire x) i hmx).2.2 hd))

theorem run_sfires (l : List String) (st : Bridge) (i : String)
    (h : (SReg st i ∧ occ l i = 1) ∨ SDone st i) :
    SDone (run st (l.map Ev.stimerFire)) i := by
  induction l generalizing st with
  | nil =>
    rcases h with ⟨hr, hl⟩ | hd
    · simp [occ] at hl
    · exact hd
  | cons x xs ih =>
    have hmx : mints (Ev.stimerFire x) i = false := rfl
    rcases h with ⟨hr, hl⟩ | hd
    · by_cases hxi : x = i
      · subst hxi
        rcases (step_stream st (Ev.stimerFire x) x hmx).2.1 hr with hreg | hdone
        · exfalso
          have hx : x ∈ st.stimers := (mem_iff_occ _ _).mpr (by rw [hr.2.1]; omega)
          have : occ (step st (Ev.stimerFire x)).stimers x = 0 := by
            show occ (stimerFireStep st x).stimers x = 0
            rw [stimerFireStep, if_pos hx]; exact occ_del_self _ _
          rw [hreg.2.1] at this; exact absurd this (by omega)
        · exact ih (step st (Ev.stimerFire x)) (Or.inr hdone)
      · have hxs : occ xs i = 1 := by
          rw [occ] at hl; rw [if_neg hxi] at hl; omega
        rcases (step_stream st (Ev.stimerFire x) i hmx).2.1 hr with hreg | hdone
        · exact ih (step st (Ev.stimerFire x)) (Or.inl ⟨hreg, hxs⟩)
        · exact ih (step st (Ev.stimerFire x)) (Or.inr hdone)
    · exact ih (step st (Ev.stimerFire x))
        (Or.inr ((step_stream st (Ev.stimerFire x) i hmx).2.2 hd))

theorem flushU_done (st : Bridge) (i : String) (h : UReg st i ∨ UDone st i) :
    UDone (flushU st) i := by
  rcases h with h | h
  · exact run_ufires st.utimers st i (Or.inl ⟨h, h.2.1⟩)
  · exact run_ufires st.utimers st i (Or.inr h)

theorem flushS_done (st : Bridge) (i : String) (h : SReg st i ∨ SDone st i) :
    SDone (flushS st) i := by
  rcases h with h | h
  · exact run_sfires st.stimers st i (Or.inl ⟨h, h.2.1⟩)
  · exact run_sfires st.stimers st i (Or.inr h)

theorem send_mints (st : Bridge) (i : String) (req : List (String × Val)) (ts : String)
    (hr : st.ready = true) (h : UFresh st i) :
    UReg (step st (Ev.send i req ts)) i := by
  rw [step_send_ready st i req ts hr]
  refine ⟨?_, ?_, h.2.2⟩
  · show occ (st.pending ++ [i]) i = 1
    rw [occ_append, h.1]; simp [occ]
  · show occ (st.utimers ++ [i]) i = 1
    rw [occ_append, h.2.1]; simp [occ]

theorem sendStream_mints (st : Bridge) (i : String) (req : List (String × Val))
    (ts : String) (hr : st.ready = true) (h : SFresh st i) :
    SReg (step st (Ev.sendStream i req ts)) i := by
  rw [step_sendStream_ready st i req ts hr]
  refine ⟨?_, ?_, h.2.2⟩
  · show occ (st.sessions ++ [i]) i = 1
    rw [occ_append, h.1]; simp [occ]
  · show occ (st.stimers ++ [i]) i = 1
    rw [occ_append, h.2.1]; simp [occ]

theorem run_append_cons (st : Bridge) (t1 : List Ev) (e : Ev) (t2 : List Ev) :
    run st (t1 ++ e :: t2) = run (step (run st t1) e) t2 := by
  simp [run, List.foldl_append]

theorem unary_exactly_once (st0 : Bridge) (i : String) (t1 t2 : List Ev)
    (req : List (String × Val)) (ts : String)
    (h0 : UFresh st0 i)
    (h1 : ∀ e ∈ t1, mints e i = false)
    (h2 : ∀ e ∈ t2, mints e i = false)
    (hr : (run st0 t1).ready = true) :
    cntFst (flushU (run st0 (t1 ++ Ev.send i req ts :: t2))).settles i = 1 := by
  rw [run_append_cons]
  have hf : UFresh (run st0 t1) i := (run_unary st0 t1 i h1).1 h0
  have hreg : UReg (step (run st0 t1) (Ev.send i req ts)) i :=
    send_mints _ i req ts hr hf
  have hrd := (run_unary _ t2 i h2).2.1 hreg
  exact (flushU_done _ i hrd).2.2

theorem streaming_exactly_once (st0 : Bridge) (i : String) (t1 t2 : List Ev)
    (req : List (String × Val)) (ts : String)
    (h0 : SFresh st0 i)
    (h1 : ∀ e ∈ t1, mints e i = false)
    (h2 : ∀ e ∈ t2, mints e i = false)
    (hr : (run st0 t1).ready = true) :
    cntFst (flushS (run st0 (t1 ++ Ev.sendStream i req ts :: t2))).ssettles i = 1 := by
  rw [run_append_cons]
  have hf : SFresh (run st0 t1) i := (run_stream st0 t1 i h1).1 h0
  have hreg : SReg (step (run st0 t1) (Ev.sendStream i req ts)) i :=
    sendStream_mints _ i req ts hr hf
  have hrd := (run_stream _ t2 i h2).2.1 hreg
  exact (flushS_done _ i hrd).2.2

/-! Identity and frame lemmas for single responses. -/

theorem sessionHandler_skip (s : Bridge) (sid : String) (v : Val)
    (h : isStr (jsField v "id") sid = false) : sessionHandler s sid v = s := by
  unfold sessionHandler; rw [if_pos h]

theorem readyHandler_skip (st : Bridge) (v : Val)
    (h : isStr (jsField v "id") "ready" = false) : readyHandler st v = st := by
  unfold readyHandler
  rw [if_neg]
  intro hc
  rw [h] at hc
  exact Bool.false_ne_true hc.2

theorem readyHandler_noListener (st : Bridge) (v : Val)
    (h : st.readyListener = false) : readyHandler st v = st := by
  unfold readyHandler
  rw [if_neg]
  intro hc
  rw [h] at hc
  exact Bool.false_ne_true hc.1

theorem fold_skip (v : Val) (l : List String) (st : Bridge)
    (h : ∀ sid ∈ l, ∀ s : Bridge, sessionHandler s sid v = s) :
    l.foldl (fun s sid => sessionHandler s sid v) st = st := by
  induction l generalizing st with
  | nil => rfl
  | cons x xs ih =>
    simp only [List.foldl_cons]
    rw [h x (List.mem_cons_self x xs) st]
    exact ih st (fun sid hsid s => h sid (List.mem_cons_of_mem x hsid) s)

theorem fold_single (v : Val) (i : String) (l : List String) (st : Bridge)
    (hocc : occ l i = 1)
    (hskip : ∀ sid, sid ≠ i → ∀ s : Bridge, sessionHandler s sid v = s) :
    l.foldl (fun s sid => sessionHandler s sid v) st = sessionHandler st i v := by
  induction l generalizing st with
  | nil => simp [occ] at hocc
  | cons x xs ih =>
    simp only [List.foldl_cons]
    by_cases hxi : x = i
    · subst hxi
      have hxs : occ xs x = 0 := by rw [occ] at hocc; rw [if_pos rfl] at hocc; omega
      have hnx : x ∉ xs := (not_mem_iff_occ _ _).mpr hxs
      exact fold_skip v xs (sessionHandler st x v)
        (fun sid hsid s => hskip sid (fun hc => hnx (hc ▸ hsid)) s)
    · have hxs : occ xs i = 1 := by rw [occ] at hocc; rw [if_neg hxi] at hocc; omega
      rw [hskip x hxi st]
      exact ih st hxs

theorem sessionHandler_ready (st : Bridge) (sid : String) (v : Val) :
    (sessionHandler st sid v).ready = st.ready := by
  unfold sessionHandler; split <;> try rfl
  split <;> try rfl
  · split <;> rfl
  · split <;> try rfl
    split <;> rfl

theorem sessionHandler_readyListener (st : Bridge) (sid : String) (v : Val) :
    (sessionHandler st sid v).readyListener = st.readyListener := by
  unfold sessionHandler; split <;> try rfl
  split <;> try rfl
  · split <;> rfl
  · split <;> try rfl
    split <;> rfl

theorem pendingStep_ready (st : Bridge) (v : Val) :
    (pendingStep st v).ready = st.ready := by
  unfold pendingStep; split <;> try rfl
  split <;> try rfl
  split <;> rfl

theorem pendingStep_readyListener (st : Bridge) (v : Val) :
    (pendingStep st v).readyListener = st.readyListener := by
  unfold pendingStep; split <;> try rfl
  split <;> try rfl
  split <;> rfl

theorem fold_sessions_ready (v : Val) (l : List String) (st : Bridge) :
    (l.foldl (fun s sid => sessionHandler s sid v) st).ready = st.ready ∧
    (l.foldl (fun s sid => sessionHandler s sid v) st).readyListener =
      st.readyListener := by
  induction l generalizing st with
  | nil => exact ⟨rfl, rfl⟩
  | cons x xs ih =>
    simp only [List.foldl_cons]
    obtain ⟨g1, g2⟩ := ih (sessionHandler st x v)
    exact ⟨g1.trans (sessionHandler_ready st x v),
           g2.trans (sessionHandler_readyListener st x v)⟩

theorem emit_noListener (st : Bridge) (v : Val) (h : st.readyListener = false) :
    (emitResponse st v).ready = st.ready ∧
    (emitResponse st v).readyListener = false := by
  unfold emitResponse
  rw [readyHandler_noListener st v h]
  obtain ⟨g1, g2⟩ := fold_sessions_ready v st.sessions st
  exact ⟨g1, g2.trans h⟩

/-- The ready flag can only be set by the ready listener: once the listener is
    gone and the flag is down, no event brings the bridge back up. -/
theorem step_ready_false (st : Bridge) (e : Ev)
    (hl : st.readyListener = false) (hr : st.ready = false) :
    (step st e).readyListener = false ∧ (step st e).ready = false := by
  cases e with
  | line l =>
    cases l with
    | nonJson s => exact ⟨hl, hr⟩
    | json v =>
      obtain ⟨g1, g2⟩ := emit_noListener st v hl
      constructor
      · show (pendingStep (emitResponse st v) v).readyListener = false
        rw [pendingStep_readyListener]; exact g2
      · show (pendingStep (emitResponse st v) v).ready = false
        rw [pendingStep_ready]; exact g1.trans hr
  | utimerFire j =>
    refine ⟨?_, ?_⟩
    · simp only [step, utimerFireStep]; split <;> exact hl
    · simp only [step, utimerFireStep]; split <;> exact hr
  | stimerFire j =>
    refine ⟨?_, ?_⟩
    · simp only [step, stimerFireStep]; split <;> exact hl
    · simp only [step, stimerFireStep]; split <;> exact hr
  | startTimerFire =>
    refine ⟨?_, ?_⟩
    · simp only [step, startTimerFireStep]; split <;> exact hl
    · simp only [step, startTimerFireStep]; split <;> exact hr
  | procExit c => exact ⟨hl, hr⟩
  | procError m => exact ⟨hl, hr⟩
  | stop => exact ⟨hl, rfl⟩
  | send j req ts =>
    rw [step_send_notReady st j req ts hr]; exact ⟨hl, hr⟩
  | sendStream j req ts =>
    rw [step_sendStream_notReady st j req ts hr]; exact ⟨hl, hr⟩

theorem run_ready_false (st : Bridge) (tr : List Ev)
    (hl : st.readyListener = false) (hr : st.ready = false) :
    (run st tr).ready = false := by
  induction tr generalizing st with
  | nil => exact hr
  | cons e es ih =>
    obtain ⟨g1, g2⟩ := step_ready_false st e hl hr
    exact ih (step st e) g1 g2

theorem stopB_empty (st : Bridge) (h : st.pending = []) :
    stopB st = { st with ready := false } := by
  simp [stopB, rejectAllPending, h]

/-- One caller invocation of send or sendStreaming. -/
inductive Call where
  | unary (req : List (String × Val)) (id ts : String)
  | streaming (req : List (String × Val)) (id ts : String)

/-- Perform a call; when the call throws, the state is unchanged and the thrown
    message is recorded. -/
def attempt (st : Bridge) (c : Call) : Bridge × Option String :=
  match c with
  | Call.unary req id ts =>
    match sendE st req id ts with
    | Except.ok st1 => (st1, none)
    | Except.error e => (st, some e)
  | Call.streaming req id ts =>
    match sendStreamingE st req id ts with
    | Except.ok st1 => (st1, none)
    | Except.error e => (st, some e)

/-- State after a sequence of caller invocations. -/
def attemptAll (st : Bridge) (cs : List Call) : Bridge :=
  cs.foldl (fun s c => (attempt s c).1) st

/-- The error observed by each caller in a sequence of invocations. -/
def results (st : Bridge) (cs : List Call) : List (Option String) :=
  match cs with
  | [] => []
  | c :: rest => (attempt st c).2 :: results (attempt st c).1 rest

theorem attempt_notReady (st : Bridge) (c : Call) (h : st.ready = false) :
    attempt st c = (st, some "Engine not ready") := by
  cases c <;> simp [attempt, sendE, sendStreamingE, h]

theorem attemptAll_notReady (st : Bridge) (cs : List Call) (h : st.ready = false) :
    attemptAll st cs = st ∧
    results st cs = cs.map (fun _ => some "Engine not ready") := by
  induction cs generalizing st with
  | nil => exact ⟨rfl, rfl⟩
  | cons c rest ih =>
    have ha := attempt_notReady st c h
    have h1 : (attempt st c).1 = st := by rw [ha]
    have h2 : (attempt st c).2 = some "Engine not ready" := by rw [ha]
    constructor
    · show List.foldl (fun s c => (attempt s c).1) ((attempt st c).1) rest = st
      rw [h1]; exact (ih st h).1
    · show (attempt st c).2 :: results (attempt st c).1 rest =
        some "Engine not ready" :: rest.map (fun _ => some "Engine not ready")
      rw [h1, h2, (ih st h).2]

/-- A response whose id is a plain string matching no session and that is not the
    reserved ready sentinel leaves the emission phase without effect. -/
theorem emit_id_not_registered (st : Bridge) (v : Val) (i : String)
    (hid : jsField v "id" = Val.str i)
    (hs : i ∉ st.sessions)
    (hready : i ≠ "ready") :
    emitResponse st v = st := by
  unfold emitResponse
  rw [readyHandler_skip st v
    (by rw [hid]; simp only [isStr]; exact decide_eq_false hready)]
  exact fold_skip v st.sessions st
    (fun sid hsid s => sessionHandler_skip s sid v
      (by rw [hid]; simp only [isStr]
          exact decide_eq_false (fun hc => hs (by rw [hc]; exact hsid))))

theorem sessionHandler_success (st : Bridge) (i : String) (v : Val)
    (hid : jsField v "id" = Val.str i)
    (hstatus : jsField v "status" = Val.str "success") :
    sessionHandler st i v =
      { st with stimers := del st.stimers i, sessions := del st.sessions i,
                chunks := st.chunks ++
                  [(i, Val.obj [("type", Val.str "done"), ("data", jsField v "data")])],
                ssettles := st.ssettles ++ [(i, SSettle.resolved)] } := by
  unfold sessionHandler
  rw [hid, hstatus]
  simp [isStr]

theorem pendingStep_error (st : Bridge) (v : Val) (i : String) (s : String)
    (hid : jsField v "id" = Val.str i)
    (hp : i ∈ st.pending)
    (hstatus : jsField v "status" = Val.str "error")
    (hmsg : jsField (jsField v "error") "message" = Val.str s)
    (hs : s ≠ "") :
    pendingStep st v =
      { st with utimers := del st.utimers i, pending := del st.pending i,
                settles := st.settles ++ [(i, USettle.rejected s)] } := by
  have hem : errMessage v = s := by
    unfold errMessage
    rw [hmsg]
    simp [jsTruthy, jsToString, hs]
  simp only [pendingStep, hid, hstatus]
  rw [if_pos ⟨hp, by simp [isStr]⟩, if_pos (by simp [isStr]), hem]

theorem pendingStep_noStatus (st : Bridge) (v : Val) (i : String)
    (hid : jsField v "id" = Val.str i)
    (hp : i ∈ st.pending)
    (hstatus : jsField v "status" = Val.undef) :
    pendingStep st v =
      { st with utimers := del st.utimers i, pending := del st.pending i,
                settles := st.settles ++ [(i, USettle.resolved (jsField v "data"))] } := by
  simp only [pendingStep, hid, hstatus]
  rw [if_pos ⟨hp, by simp [isStr]⟩, if_neg (by simp [isStr])]

/-! Claim theorems. -/

/-- C1: for every correlation id minted by a send or sendStreaming call, across
    any interleaving of matching responses, timer firings and propagated failure
    sweeps (and any events for other ids), the promise of the caller is settled
    exactly once: never zero times and never more than once. Fairness of timers
    is expressed by firing the remaining live timers at the end of the trace. -/
theorem spec_C1_exactly_once :
    (∀ (st0 : Bridge) (i : String) (t1 t2 : List Ev) (req : List (String × Val))
        (ts : String),
      UFresh st0 i →
      (∀ e ∈ t1, mints e i = false) →
      (∀ e ∈ t2, mints e i = false) →
      (run st0 t1).ready = true →
      cntFst (flushU (run st0 (t1 ++ Ev.send i req ts :: t2))).settles i = 1) ∧
    (∀ (st0 : Bridge) (i : String) (t1 t2 : List Ev) (req : List (String × Val))
        (ts : String),
      SFresh st0 i →
      (∀ e ∈ t1, mints e i = false) →
      (∀ e ∈ t2, mints e i = false) →
      (run st0 t1).ready = true →
      cntFst (flushS (run st0 (t1 ++ Ev.sendStream i req ts :: t2))).ssettles i = 1) :=
  ⟨fun st0 i t1 t2 req ts h0 h1 h2 hr =>
      unary_exactly_once st0 i t1 t2 req ts h0 h1 h2 hr,
   fun st0 i t1 t2 req ts h0 h1 h2 hr =>
      streaming_exactly_once st0 i t1 t2 req ts h0 h1 h2 hr⟩

theorem spec_C1_witness :
    cntFst (flushU (run { ready := true }
      ([] ++ Ev.send "a" [] "t" :: []))).settles "a" = 1 ∧
    cntFst (flushS (run { ready := true }
      ([] ++ Ev.sendStream "b" [] "t" :: []))).ssettles "b" = 1 :=
  ⟨spec_C1_exactly_once.1 { ready := true } "a" [] [] [] "t"
      ⟨rfl, rfl, rfl⟩ (by simp) (by simp) rfl,
   spec_C1_exactly_once.2 { ready := true } "b" [] [] [] "t"
      ⟨rfl, rfl, rfl⟩ (by simp) (by simp) rfl⟩

/-- C2 counterexample: with one pending unary request and one open streaming
    session, a worker exit fails the unary caller and empties the pending map,
    but the streaming session is neither failed nor removed: its listener and
    timer survive and its completion log stays empty, contradicting the claim
    that all N+M callers are failed and both correlation structures emptied. -/
theorem spec_C2_counterexample :
    (step { pending := ["r1"], utimers := ["r1"], sessions := ["s1"], stimers := ["s1"] }
        (Ev.procExit 1)).sessions = ["s1"] ∧
    (step { pending := ["r1"], utimers := ["r1"], sessions := ["s1"], stimers := ["s1"] }
        (Ev.procExit 1)).stimers = ["s1"] ∧
    (step { pending := ["r1"], utimers := ["r1"], sessions := ["s1"], stimers := ["s1"] }
        (Ev.procExit 1)).ssettles = [] ∧
    (step { pending := ["r1"], utimers := ["r1"], sessions := ["s1"], stimers := ["s1"] }
        (Ev.procExit 1)).pending = [] :=
  ⟨rfl, rfl, rfl, rfl⟩

/-- C2 (amended): a worker process exit immediately fails every pending unary
    request with the exit error and empties the pending map, but open streaming
    sessions are not swept: their listeners, timers, chunk logs and completions
    are untouched and only fail later through their own timeout. -/
theorem spec_C2_sweep (st : Bridge) (c : Int) :
    (step st (Ev.procExit c)).pending = [] ∧
    (step st (Ev.procExit c)).settles =
      st.settles ++ st.pending.map
        (fun p => (p, USettle.rejected ("Engine exited with code " ++ toString c))) ∧
    (step st (Ev.procExit c)).sessions = st.sessions ∧
    (step st (Ev.procExit c)).stimers = st.stimers ∧
    (step st (Ev.procExit c)).ssettles = st.ssettles ∧
    (step st (Ev.procExit c)).chunks = st.chunks :=
  ⟨rfl, rfl, rfl, rfl, rfl, rfl⟩

/-- C3: before the readiness handshake, every send and sendStreaming call fails
    with the Engine not ready error, however many calls are made, the state is
    unchanged and nothing is ever written to the worker input stream. -/
theorem spec_C3_gating (st : Bridge) (cs : List Call) (h : st.ready = false) :
    attemptAll st cs = st ∧
    results st cs = cs.map (fun _ => some "Engine not ready") ∧
    (attemptAll st cs).written = st.written := by
  obtain ⟨h1, h2⟩ := attemptAll_notReady st cs h
  exact ⟨h1, h2, by rw [h1]⟩

theorem spec_C3_witness :
    attemptAll { } [Call.unary [] "a" "t", Call.streaming [] "b" "t"] = { } ∧
    results { } [Call.unary [] "a" "t", Call.streaming [] "b" "t"] =
      [some "Engine not ready", some "Engine not ready"] ∧
    (attemptAll { } [Call.unary [] "a" "t", Call.streaming [] "b" "t"]).written =
      Bridge.written { } := by
  have h := spec_C3_gating { } [Call.unary [] "a" "t", Call.streaming [] "b" "t"] rfl
  exact ⟨h.1, h.2.1, h.2.2⟩

/-- C4 counterexample: from the awaiting-ready gate (listener registered, startup
    timer armed), the 30 second startup timeout fires and a ready message arrives
    later. The waitForReady promise has been rejected, so the gate failed, yet
    the bridge still becomes Ready, because the timeout path does not remove the
    ready listener. -/
theorem spec_C4_counterexample :
    (run { readyListener := true, startTimer := true }
      [Ev.startTimerFire, Ev.line (Line.json (Val.obj [("id", Val.str "ready")]))]).ready
        = true ∧
    (run { readyListener := true, startTimer := true }
      [Ev.startTimerFire, Ev.line (Line.json (Val.obj [("id", Val.str "ready")]))]).startSettles
        = [StartSettle.rejected "Engine startup timeout", StartSettle.resolved] :=
  ⟨rfl, rfl⟩

/-- C4 (amended): the startup timeout rejects the waitForReady promise (the first
    settle wins), but the ready listener survives, so a later ready message still
    raises the ready flag; stop lowers the flag, and once the listener is gone
    and the flag is down no subsequent trace of events raises it again. -/
theorem spec_C4_gate :
    ((run { readyListener := true, startTimer := true }
        [Ev.startTimerFire, Ev.line (Line.json (Val.obj [("id", Val.str "ready")]))]).ready
          = true ∧
     (run { readyListener := true, startTimer := true }
        [Ev.startTimerFire, Ev.line (Line.json (Val.obj [("id", Val.str "ready")]))]).startSettles.head?
          = some (StartSettle.rejected "Engine startup timeout")) ∧
    (∀ st : Bridge, (stopB st).ready = false) ∧
    (∀ (st : Bridge) (tr : List Ev), st.readyListener = false → st.ready = false →
      (run st tr).ready = false) :=
  ⟨⟨rfl, rfl⟩, fun _ => rfl, fun st tr hl hr => run_ready_false st tr hl hr⟩

theorem spec_C4_witness :
    (run { } [Ev.line (Line.json (Val.obj [("id", Val.str "ready")])),
              Ev.send "a" [] "t"]).ready = false :=
  spec_C4_gate.2.2 { }
    [Ev.line (Line.json (Val.obj [("id", Val.str "ready")])), Ev.send "a" [] "t"]
    rfl rfl

/-- C5 counterexample: a line that parses as JSON but carries no status field,
    with the id of a pending request, is not treated as a diagnostic: it resolves
    the pending request (with the absent data field, since its status is neither
    streaming nor error), removes it from the map, and logs nothing. -/
theorem spec_C5_counterexample :
    (step { pending := ["r1"], utimers := ["r1"] }
        (Ev.line (Line.json (Val.obj [("id", Val.str "r1")])))).settles =
      [("r1", USettle.resolved Val.undef)] ∧
    (step { pending := ["r1"], utimers := ["r1"] }
        (Ev.line (Line.json (Val.obj [("id", Val.str "r1")])))).pending = [] ∧
    (step { pending := ["r1"], utimers := ["r1"] }
        (Ev.line (Line.json (Val.obj [("id", Val.str "r1")])))).logs = [] :=
  ⟨rfl, rfl, rfl⟩

/-- C5 (amended): decoding never throws. A non-JSON line only appends a log entry
    and affects nothing else. A JSON line lacking a status field is ignored by
    streaming sessions and by the ready wait, but when its id matches a pending
    unary request the request is resolved with the (absent) data field instead of
    being treated as a pure diagnostic. -/
theorem spec_C5_decode :
    (∀ (st : Bridge) (s : String),
      step st (Ev.line (Line.nonJson s)) =
        { st with logs := st.logs ++ ["[engine] " ++ s] }) ∧
    (∀ (st : Bridge) (v : Val) (i : String),
      jsField v "id" = Val.str i → i ∈ st.pending →
      jsField v "status" = Val.undef → i ∉ st.sessions → i ≠ "ready" →
      step st (Ev.line (Line.json v)) =
        { st with utimers := del st.utimers i, pending := del st.pending i,
                  settles := st.settles ++ [(i, USettle.resolved (jsField v "data"))] }) := by
  constructor
  · intro st s; rfl
  · intro st v i hid hp hstatus hs hready
    show pendingStep (emitResponse st v) v = _
    rw [emit_id_not_registered st v i hid hs hready]
    exact pendingStep_noStatus st v i hid hp hstatus

theorem spec_C5_witness :
    step { } (Ev.line (Line.nonJson "warn")) = { logs := ["[engine] warn"] } ∧
    step { pending := ["r1"], utimers := ["r1"] }
        (Ev.line (Line.json (Val.obj [("id", Val.str "r1"), ("data", Val.str "x")]))) =
      { utimers := [], pending := [],
        settles := [("r1", USettle.resolved (Val.str "x"))] } :=
  ⟨spec_C5_decode.1 { } "warn",
   spec_C5_decode.2 { pending := ["r1"], utimers := ["r1"] }
     (Val.obj [("id", Val.str "r1"), ("data", Val.str "x")]) "r1"
     rfl (by decide) rfl (by decide) (by decide)⟩

/-- C6: a terminal response for a correlation id that is no longer registered
    anywhere (for example after its timeout fired and removed it) is dropped with
    no effect whatsoever: the handler returns the state entirely unchanged, so no
    caller is resolved twice and the remaining pending state is untouched. -/
theorem spec_C6_dangling (st : Bridge) (v : Val) (i : String)
    (hid : jsField v "id" = Val.str i)
    (hp : i ∉ st.pending)
    (hs : i ∉ st.sessions)
    (hready : i ≠ "ready") :
    step st (Ev.line (Line.json v)) = st := by
  show pendingStep (emitResponse st v) v = st
  rw [emit_id_not_registered st v i hid hs hready]
  simp only [pendingStep, hid]
  rw [if_neg (fun hc => hp hc.1)]

theorem spec_C6_witness :
    step { pending := ["r2"], utimers := ["r2"] }
        (Ev.line (Line.json
          (Val.obj [("id", Val.str "r1"), ("status", Val.str "success")]))) =
      { pending := ["r2"], utimers := ["r2"] } :=
  spec_C6_dangling { pending := ["r2"], utimers := ["r2"] }
    (Val.obj [("id", Val.str "r1"), ("status", Val.str "success")]) "r1"
    rfl (by decide) (by decide) (by decide)

/-- C7: a streaming session answered by a single status success message delivers
    exactly one chunk to the sink, wrapped as the terminal done type and carrying
    the full payload in its data field, the completion of the session resolves,
    and the session listener is removed. -/
theorem spec_C7_success_stream (st : Bridge) (v : Val) (i : String) (d : Val)
    (hocc : occ st.sessions i = 1)
    (hid : jsField v "id" = Val.str i)
    (hstatus : jsField v "status" = Val.str "success")
    (hdata : jsField v "data" = d)
    (hready : i ≠ "ready")
    (hp : i ∉ st.pending)
    (hchunks : cntFst st.chunks i = 0)
    (hssettles : cntFst st.ssettles i = 0) :
    (step st (Ev.line (Line.json v))).chunks =
      st.chunks ++ [(i, Val.obj [("type", Val.str "done"), ("data", d)])] ∧
    cntFst (step st (Ev.line (Line.json v))).chunks i = 1 ∧
    (step st (Ev.line (Line.json v))).ssettles =
      st.ssettles ++ [(i, SSettle.resolved)] ∧
    cntFst (step st (Ev.line (Line.json v))).ssettles i = 1 ∧
    i ∉ (step st (Ev.line (Line.json v))).sessions := by
  have hemit : emitResponse st v = sessionHandler st i v := by
    unfold emitResponse
    rw [readyHandler_skip st v
      (by rw [hid]; simp only [isStr]; exact decide_eq_false hready)]
    exact fold_single v i st.sessions st hocc
      (fun sid hsid s => sessionHandler_skip s sid v
        (by rw [hid]; simp only [isStr]
            exact decide_eq_false (fun hc => hsid hc.symm)))
  have hstep : step st (Ev.line (Line.json v)) = sessionHandler st i v := by
    show pendingStep (emitResponse st v) v = _
    rw [hemit]
    have hp2 : i ∉ (sessionHandler st i v).pending := by
      rw [sessionHandler_pending]; exact hp
    simp only [pendingStep, hid]
    rw [if_neg (fun hc => hp2 hc.1)]
  rw [hstep, sessionHandler_success st i v hid hstatus, hdata]
  refine ⟨rfl, ?_, rfl, ?_, ?_⟩
  · show cntFst (st.chunks ++
      [(i, Val.obj [("type", Val.str "done"), ("data", d)])]) i = 1
    rw [cntFst_append, hchunks]; simp [cntFst]
  · show cntFst (st.ssettles ++ [(i, SSettle.resolved)]) i = 1
    rw [cntFst_append, hssettles]; simp [cntFst]
  · show i ∉ del st.sessions i
    rw [not_mem_iff_occ]; exact occ_del_self _ _

theorem spec_C7_witness :
    cntFst (step { sessions := ["s"], stimers := ["s"] }
      (Ev.line (Line.json (Val.obj
        [("id", Val.str "s"), ("status", Val.str "success"),
         ("data", Val.str "p")])))).chunks "s" = 1 ∧
    "s" ∉ (step { sessions := ["s"], stimers := ["s"] }
      (Ev.line (Line.json (Val.obj
        [("id", Val.str "s"), ("status", Val.str "success"),
         ("data", Val.str "p")])))).sessions :=
  ⟨(spec_C7_success_stream { sessions := ["s"], stimers := ["s"] }
      (Val.obj [("id", Val.str "s"), ("status", Val.str "success"),
                ("data", Val.str "p")]) "s" (Val.str "p")
      (by decide) rfl rfl rfl (by decide) (by decide) rfl rfl).2.1,
   (spec_C7_success_stream { sessions := ["s"], stimers := ["s"] }
      (Val.obj [("id", Val.str "s"), ("status", Val.str "success"),
                ("data", Val.str "p")]) "s" (Val.str "p")
      (by decide) rfl rfl rfl (by decide) (by decide) rfl rfl).2.2.2.2⟩

/-- C8 counterexample: two worker error responses differing only in their code and
    details fields settle the caller with identical outcomes, so the rejection
    does not carry the code or the details; and a worker-supplied empty message is
    replaced by the string Unknown error, so the message is not verbatim. -/
theorem spec_C8_counterexample :
    (step { pending := ["r1"], utimers := ["r1"] }
       (Ev.line (Line.json (Val.obj [("id", Val.str "r1"),
         ("status", Val.str "error"),
         ("error", Val.obj [("code", Val.str "E1"), ("message", Val.str "boom"),
                            ("details", Val.str "d1")])])))).settles =
    (step { pending := ["r1"], utimers := ["r1"] }
       (Ev.line (Line.json (Val.obj [("id", Val.str "r1"),
         ("status", Val.str "error"),
         ("error", Val.obj [("code", Val.str "E2"), ("message", Val.str "boom"),
                            ("details", Val.str "d2")])])))).settles ∧
    (step { pending := ["r1"], utimers := ["r1"] }
       (Ev.line (Line.json (Val.obj [("id", Val.str "r1"),
         ("status", Val.str "error"),
         ("error", Val.obj [("code", Val.str "E1"), ("message", Val.str ""),
                            ("details", Val.str "d1")])])))).settles =
      [("r1", USettle.rejected "Unknown error")] :=
  ⟨rfl, rfl⟩

/-- C8 (amended): a matching status error response settles the caller by
    rejecting with an Error whose message is the worker-supplied error message
    whenever that message is a nonempty string; the worker code and details do
    not reach the caller. -/
theorem spec_C8_worker_error (st : Bridge) (v : Val) (i : String) (s : String)
    (hid : jsField v "id" = Val.str i)
    (hp : i ∈ st.pending)
    (hstatus : jsField v "status" = Val.str "error")
    (hmsg : jsField (jsField v "error") "message" = Val.str s)
    (hne : s ≠ "")
    (hs : i ∉ st.sessions)
    (hready : i ≠ "ready") :
    step st (Ev.line (Line.json v)) =
      { st with utimers := del st.utimers i, pending := del st.pending i,
                settles := st.settles ++ [(i, USettle.rejected s)] } := by
  show pendingStep (emitResponse st v) v = _
  rw [emit_id_not_registered st v i hid hs hready]
  exact pendingStep_error st v i s hid hp hstatus hmsg hne

theorem spec_C8_witness :
    step { pending := ["r1"], utimers := ["r1"] }
      (Ev.line (Line.json (Val.obj [("id", Val.str "r1"),
        ("status", Val.str "error"),
        ("error", Val.obj [("code", Val.str "E1"),
                           ("message", Val.str "boom")])]))) =
      { utimers := [], pending := [],
        settles := [("r1", USettle.rejected "boom")] } :=
  spec_C8_worker_error { pending := ["r1"], utimers := ["r1"] }
    (Val.obj [("id", Val.str "r1"), ("status", Val.str "error"),
              ("error", Val.obj [("code", Val.str "E1"),
                                 ("message", Val.str "boom")])])
    "r1" "boom" rfl (by decide) rfl rfl (by decide) (by decide) (by decide)

/-- C9: stop is a total function (it never throws), it is idempotent, it lowers
    the ready flag, it rejects every still-pending request with the Engine
    stopped cause, and the failure sweep is idempotent: the process-exit event
    that follows the kill settles nothing further, since the map is empty. -/
theorem spec_C9_stop (st : Bridge) (c : Int) :
    stopB (stopB st) = stopB st ∧
    (stopB st).pending = [] ∧
    (stopB st).settles =
      st.settles ++ st.pending.map (fun p => (p, USettle.rejected "Engine stopped")) ∧
    (stopB st).ready = false ∧
    (step (stopB st) (Ev.procExit c)).settles = (stopB st).settles ∧
    (step (stopB st) (Ev.procExit c)).pending = [] := by
  refine ⟨?_, rfl, rfl, rfl, ?_, rfl⟩
  · exact (stopB_empty (stopB st) rfl).trans rfl
  · show (stopB st).settles ++ [] = (stopB st).settles
    exact List.append_nil _

/-- C10: in the Ready state, both send and sendStreaming register the pending
    record (or the session listener) and start the timeout timer strictly before
    the encoded line is written: after the first two effects the registration
    exists while nothing has been written yet, and the write is the last effect. -/
theorem spec_C10_ordering :
    (∀ (st : Bridge) (i ts : String) (req : List (String × Val)) (st1 : Bridge),
      sendE st req i ts = Except.ok st1 →
      sendEffects i req ts =
        [Effect.startUTimer i, Effect.registerPending i,
         Effect.writeLine (outMsg req i ts)] ∧
      i ∈ (applyEffects st ((sendEffects i req ts).take 2)).pending ∧
      i ∈ (applyEffects st ((sendEffects i req ts).take 2)).utimers ∧
      (applyEffects st ((sendEffects i req ts).take 2)).written = st.written ∧
      st1.pending = st.pending ++ [i] ∧
      st1.written = st.written ++ [outMsg req i ts]) ∧
    (∀ (st : Bridge) (i ts : String) (req : List (String × Val)) (st1 : Bridge),
      sendStreamingE st req i ts = Except.ok st1 →
      sendStreamingEffects i req ts =
        [Effect.startSTimer i, Effect.addListener i,
         Effect.writeLine (outMsg req i ts)] ∧
      i ∈ (applyEffects st ((sendStreamingEffects i req ts).take 2)).sessions ∧
      i ∈ (applyEffects st ((sendStreamingEffects i req ts).take 2)).stimers ∧
      (applyEffects st ((sendStreamingEffects i req ts).take 2)).written = st.written ∧
      st1.sessions = st.sessions ++ [i] ∧
      st1.written = st.written ++ [outMsg req i ts]) := by
  constructor
  · intro st i ts req st1 hok
    have hr : st.ready = true := by
      by_cases h : st.ready
      · exact h
      · rw [sendE, if_neg h] at hok; cases hok
    rw [sendE, if_pos hr] at hok
    injection hok with hok
    subst hok
    refine ⟨rfl, ?_, ?_, rfl, rfl, rfl⟩
    · show i ∈ st.pending ++ [i]
      simp
    · show i ∈ st.utimers ++ [i]
      simp
  · intro st i ts req st1 hok
    have hr : st.ready = true := by
      by_cases h : st.ready
      · exact h
      · rw [sendStreamingE, if_neg h] at hok; cases hok
    rw [sendStreamingE, if_pos hr] at hok
    injection hok with hok
    subst hok
    refine ⟨rfl, ?_, ?_, rfl, rfl, rfl⟩
    · show i ∈ st.sessions ++ [i]
      simp
    · show i ∈ st.stimers ++ [i]
      simp

theorem spec_C10_witness :
    "a" ∈ (applyEffects { ready := true }
      ((sendEffects "a" [] "t").take 2)).pending ∧
    "b" ∈ (applyEffects { ready := true }
      ((sendStreamingEffects "b" [] "t").take 2)).sessions :=
  ⟨(spec_C10_ordering.1 { ready := true } "a" "t" [] _ rfl).2.1,
   (spec_C10_ordering.2 { ready := true } "b" "t" [] _ rfl).2.1⟩

end EngineBridge
